import Mathlib

/-!
Shallow embedding of the todo application's task state manager
(`src/unnamed/part_000`, the typed variant of `App`).

Tasks live in a canonical ordered collection together with a single-slot
undo buffer.  Every React `useCallback` mutator is embedded as a pure
function on an explicit `AppState`; the view projection (`filteredTodos`),
the derived counters (`remainingCount`, `completionPct`) and the per-task
overdue flag (`isOverdue`) are pure functions of the same data, exactly as
in the source.  JavaScript string comparison (`<`, `localeCompare`) is
modelled by Lean's code-point order on `String`; JS `Array.prototype.sort`
(stable since ES2019) is modelled by `List.insertionSort`, which is stable
and agrees with any consistent comparator; JS number arithmetic in the
completion percentage is modelled by exact rational arithmetic with
`Math.round` as `⌊q + 1/2⌋` (round half toward positive infinity).
-/

namespace TodoApp

/-- The `Todo` record of the source.  `dueDate` is `string | null | undefined`
in TypeScript; `none` stands for `null`/`undefined` (absent), while
`some ""` is an empty-string date, reachable only through persisted data. -/
structure Todo where
  id : String
  text : String
  done : Bool
  dueDate : Option String
deriving DecidableEq, Repr

/-- `type Filter = "all" | "active" | "completed"`. -/
inductive Filter where
  | all | active | completed
deriving DecidableEq, Repr

/-- `type SortMode = "manual" | "due" | "status"`. -/
inductive SortMode where
  | manual | due | status
deriving DecidableEq, Repr

/-- The Task Store's own state: the canonical collection plus the single
pending undo entry (`undoStack`, `undoMessage` in the source). -/
structure AppState where
  todos : List Todo
  undoStack : Option (List Todo)
  undoMessage : Option String
deriving DecidableEq, Repr

/-- The ids of the tasks of a collection, in order. -/
def idsOf (todos : List Todo) : List String := todos.map Todo.id

/-- `String.prototype.trim`: strips leading and trailing whitespace.
Defined on the character list so that it evaluates by kernel reduction. -/
def jsTrim (s : String) : String :=
  ⟨(((s.data.dropWhile Char.isWhitespace).reverse.dropWhile Char.isWhitespace).reverse)⟩

/-- `canAdd = newTodo.trim().length > 0`. -/
def canAdd (newTodo : String) : Bool := (jsTrim newTodo).length > 0

/-- `addTodo`: no-op unless `canAdd`; otherwise appends a task built from the
trimmed text and `newDue || undefined` (JS `||` turns the empty string into
`undefined`), with the caller-supplied fresh id (`safeId()` in the source). -/
def addTodo (newId newTodo newDue : String) (s : AppState) : AppState :=
  if !(canAdd newTodo) then s
  else
    let due : Option String := if newDue = "" then none else some newDue
    let newTask : Todo := { id := newId, text := jsTrim newTodo, done := false, dueDate := due }
    { s with todos := s.todos ++ [newTask] }

/-- `toggleTodo`: flips `done` on the matching id. -/
def toggleTodo (tid : String) (s : AppState) : AppState :=
  { s with todos := s.todos.map fun t => if t.id == tid then { t with done := !t.done } else t }

/-- `deleteTodo`: if a task with the id exists, removes it and replaces the
undo buffer with that single task and the message `Deleted "<text>"`. -/
def deleteTodo (tid : String) (s : AppState) : AppState :=
  match s.todos.find? (fun t => t.id == tid) with
  | none => s
  | some removed =>
      { todos := s.todos.filter (fun t => t.id != tid)
        undoStack := some [removed]
        undoMessage := some ("Deleted \"" ++ removed.text ++ "\"") }

/-- `saveEditing`, restricted to its effect on the store state.  The editing
session (`editingId`, `editingText`) is passed explicitly; the source's
trailing `setEditingId(null); setEditingText("")` only clears that session. -/
def saveEditing (editingId : Option String) (editingText : String) (s : AppState) : AppState :=
  match editingId with
  | none => s
  | some eid =>
      let text := jsTrim editingText
      if text.length = 0 then
        match s.todos.find? (fun t => t.id == eid) with
        | some removed =>
            { todos := s.todos.filter (fun t => t.id != eid)
              undoStack := some [removed]
              undoMessage := some ("Deleted \"" ++ removed.text ++ "\"") }
        | none => { s with todos := s.todos.filter (fun t => t.id != eid) }
      else
        { s with todos := s.todos.map fun t => if t.id == eid then { t with text := text } else t }

/-- The snackbar message of `clearCompleted`:
`Cleared ${n} completed item${n === 1 ? "" : "s"}`. -/
def clearMessage (n : Nat) : String :=
  "Cleared " ++ toString n ++ " completed item" ++ (if n = 1 then "" else "s")

/-- `clearCompleted`: drops every `done` task; when at least one was dropped,
the undo buffer becomes the full dropped sequence. -/
def clearCompleted (s : AppState) : AppState :=
  let removed := s.todos.filter (fun t => t.done)
  if removed.length > 0 then
    { todos := s.todos.filter (fun t => !t.done)
      undoStack := some removed
      undoMessage := some (clearMessage removed.length) }
  else
    { s with todos := s.todos.filter (fun t => !t.done) }

/-- `undo`: no-op on an empty buffer; otherwise appends every buffered task
whose id is not already present, then clears the buffer and message. -/
def undo (s : AppState) : AppState :=
  match s.undoStack with
  | none => s
  | some stack =>
      if stack.length = 0 then s
      else
        let existingIds := idsOf s.todos
        let restored := stack.filter (fun t => !(existingIds.contains t.id))
        { todos := s.todos ++ restored, undoStack := none, undoMessage := none }

/-- The snackbar's dismiss button: clears the buffer and message. -/
def dismissUndo (s : AppState) : AppState :=
  { s with undoStack := none, undoMessage := none }

/-- `remainingCount = todos.filter(t => !t.done).length`. -/
def remainingCount (todos : List Todo) : Nat :=
  (todos.filter (fun t => !t.done)).length

/-- `Math.round`: round half toward positive infinity, on exact rationals. -/
def jsRound (q : ℚ) : Int := ⌊q + 1 / 2⌋

/-- `completionPct = todos.length === 0 ? 0 :
Math.round(((todos.length - remainingCount) / todos.length) * 100)`. -/
def completionPct (todos : List Todo) : Int :=
  if todos.length = 0 then 0
  else jsRound ((((todos.length : ℚ) - (remainingCount todos : ℚ)) / (todos.length : ℚ)) * 100)

/-- `String.prototype.localeCompare`, modelled as code-point order (the
source only relies on its sign; on ISO dates code-point order is
chronological order). -/
def localeCompare (a b : String) : Int :=
  if a < b then -1 else if b < a then 1 else 0

/-- `a.dueDate ?? ""`: the due-date key the `due` comparator sorts by. -/
def dueKey (t : Todo) : String := t.dueDate.getD ""

/-- The `due` comparator of `filteredTodos`:
equal keys fall back to text; a falsy (empty) key goes last. -/
def dueCmp (a b : Todo) : Int :=
  let ad := dueKey a
  let bd := dueKey b
  if ad = bd then localeCompare a.text b.text
  else if ad = "" then 1
  else if bd = "" then -1
  else localeCompare ad bd

/-- `Number(b : boolean)`. -/
def boolToInt (b : Bool) : Int := if b then 1 else 0

/-- The `status` comparator:
`Number(a.done) - Number(b.done) || a.text.localeCompare(b.text)`. -/
def statusCmp (a b : Todo) : Int :=
  let d := boolToInt a.done - boolToInt b.done
  if d = 0 then localeCompare a.text b.text else d

/-- `a` sorts no later than `b` under the `due` comparator. -/
def dueLE (a b : Todo) : Prop := dueCmp a b ≤ 0

instance : DecidableRel dueLE := fun a b => inferInstanceAs (Decidable (dueCmp a b ≤ 0))

/-- `a` sorts no later than `b` under the `status` comparator. -/
def statusLE (a b : Todo) : Prop := statusCmp a b ≤ 0

instance : DecidableRel statusLE := fun a b => inferInstanceAs (Decidable (statusCmp a b ≤ 0))

/-- The filter step of `filteredTodos`. -/
def applyFilter (f : Filter) (todos : List Todo) : List Todo :=
  match f with
  | .active => todos.filter (fun t => !t.done)
  | .completed => todos.filter (fun t => t.done)
  | .all => todos

/-- `filteredTodos`: filter, then (for `due`/`status`) a stable sort of a
copy (`[...list].sort(...)`); `manual` keeps canonical order.  Being a pure
function of the collection, it cannot mutate the canonical order. -/
def filteredTodos (f : Filter) (sort : SortMode) (todos : List Todo) : List Todo :=
  let list := applyFilter f todos
  match sort with
  | .due => List.insertionSort dueLE list
  | .status => List.insertionSort statusLE list
  | .manual => list

/-- `isOverdue`: false when `t.dueDate` is falsy (`undefined`, `null` or the
empty string) or the task is done; otherwise a strict string comparison
against today's ISO date. -/
def isOverdue (today : String) (t : Todo) : Bool :=
  if dueKey t = "" || t.done then false
  else decide (dueKey t < today)

/-- A JSON value, the possible result of `JSON.parse`. -/
inductive JsonVal where
  | null
  | bool (b : Bool)
  | num (q : ℚ)
  | str (s : String)
  | arr (xs : List JsonVal)
  | obj (fields : List (String × JsonVal))

/-- The tasks branch of the load effect.  `jsonParse` stands for
`JSON.parse`, with `Except.error` for a thrown exception (caught by the
source's `try`/`catch`, which keeps the default); `none` stands for a
missing key (or a throwing storage read, equally caught).  `if (saved)` is
a truthiness test, so the empty string is treated as missing.  Only an
array is accepted; anything else leaves the default `[]`.  The function is
total: no input makes loading throw to the caller. -/
def loadTodos (jsonParse : String → Except String JsonVal) (saved : Option String) :
    List JsonVal :=
  match saved with
  | none => []
  | some s =>
      if s = "" then []
      else
        match jsonParse s with
        | .error _ => []
        | .ok (.arr xs) => xs
        | .ok _ => []

/-- The filter branch of the load effect: only the three enum literals are
accepted, anything else keeps the default `all`. -/
def loadFilter (saved : Option String) : Filter :=
  if saved = some "all" then .all
  else if saved = some "active" then .active
  else if saved = some "completed" then .completed
  else .all

/-- The sort branch of the load effect: only the three enum literals are
accepted, anything else keeps the default `manual`. -/
def loadSort (saved : Option String) : SortMode :=
  if saved = some "manual" then .manual
  else if saved = some "due" then .due
  else if saved = some "status" then .status
  else .manual

/-- The persisted literal of a `Filter`. -/
def filterLiteral : Filter → String
  | .all => "all"
  | .active => "active"
  | .completed => "completed"

/-- The persisted literal of a `SortMode`. -/
def sortLiteral : SortMode → String
  | .manual => "manual"
  | .due => "due"
  | .status => "status"

/-! ### Basic helper lemmas -/

theorem string_length_eq_zero (s : String) : s.length = 0 ↔ s = "" := by
  cases s with
  | mk data => simp [String.length, String.ext_iff]

theorem canAdd_eq_false_iff (t : String) : canAdd t = false ↔ jsTrim t = "" := by
  simp [canAdd, Nat.pos_iff_ne_zero, string_length_eq_zero]

/-- A sample task for concrete witnesses. -/
def sampleTask : Todo := { id := "1", text := "a", done := false, dueDate := none }

/-- A sample store state for concrete witnesses. -/
def sampleState : AppState := { todos := [sampleTask], undoStack := none, undoMessage := none }

/-! ### C1: add -/

/-- C1: `add` is a no-op when the text trims to empty; otherwise it appends
exactly one new task at the end — trimmed text, `done = false`, the given
due date or absent — so the length grows by one, the existing tasks are
unchanged (they are the prefix), the undo buffer is untouched, and a fresh
id keeps the ids duplicate-free. -/
theorem add_spec (s : AppState) (newId newTodo newDue : String) :
    (jsTrim newTodo = "" → addTodo newId newTodo newDue s = s) ∧
    (jsTrim newTodo ≠ "" →
      (addTodo newId newTodo newDue s).todos =
          s.todos ++ [{ id := newId, text := jsTrim newTodo, done := false,
                        dueDate := if newDue = "" then none else some newDue }] ∧
      (addTodo newId newTodo newDue s).todos.length = s.todos.length + 1 ∧
      (addTodo newId newTodo newDue s).todos.take s.todos.length = s.todos ∧
      (addTodo newId newTodo newDue s).undoStack = s.undoStack ∧
      (addTodo newId newTodo newDue s).undoMessage = s.undoMessage ∧
      (newId ∉ idsOf s.todos → (idsOf s.todos).Nodup →
        (idsOf (addTodo newId newTodo newDue s).todos).Nodup)) := by
  constructor
  · intro h
    have hc : canAdd newTodo = false := (canAdd_eq_false_iff newTodo).mpr h
    simp [addTodo, hc]
  · intro h
    have hc : canAdd newTodo = true := by
      cases hcc : canAdd newTodo with
      | false => exact absurd ((canAdd_eq_false_iff newTodo).mp hcc) h
      | true => rfl
    refine ⟨by simp [addTodo, hc], by simp [addTodo, hc], ?_, by simp [addTodo, hc],
      by simp [addTodo, hc], ?_⟩
    · simp [addTodo, hc, List.take_left]
    · intro hni hnd
      have : idsOf (addTodo newId newTodo newDue s).todos = idsOf s.todos ++ [newId] := by
        simp [addTodo, hc, idsOf]
      rw [this]
      exact List.Nodup.append hnd (List.nodup_singleton _)
        (by simpa [List.disjoint_singleton] using hni)

/-! ### C2: editCommit with empty text = delete -/

/-- C2: committing an edit whose text trims to empty yields exactly the state
`delete(id)` yields on the same input state: the same canonical collection,
the same undo buffer and the same undo message. -/
theorem editCommit_empty_eq_delete (s : AppState) (eid editingText : String)
    (h : jsTrim editingText = "") :
    saveEditing (some eid) editingText s = deleteTodo eid s := by
  have hlen : (jsTrim editingText).length = 0 := by rw [h]; rfl
  cases hf : s.todos.find? (fun t => t.id == eid) with
  | some removed =>
      simp [saveEditing, deleteTodo, hlen, hf]
  | none =>
      have hfix : s.todos.filter (fun t => t.id != eid) = s.todos := by
        rw [List.filter_eq_self]
        intro a ha
        have := List.find?_eq_none.mp hf a ha
        simpa using this
      simp [saveEditing, deleteTodo, hlen, hf, hfix]

/-- C2 at a concrete input: editing task `"1"` to whitespace acts as delete. -/
theorem editCommit_empty_eq_delete_witness :
    saveEditing (some "1") " " sampleState = deleteTodo "1" sampleState :=
  editCommit_empty_eq_delete sampleState "1" " " (by decide)

/-! ### C3: delete then undo -/

/-- With duplicate-free ids, the tasks matching an id found by `find?` are
exactly the found one. -/
theorem filter_beq_of_find? (l : List Todo) (tid : String) (t : Todo)
    (hnd : (idsOf l).Nodup) (hf : l.find? (fun u => u.id == tid) = some t) :
    l.filter (fun u => u.id == tid) = [t] := by
  induction l with
  | nil => simp at hf
  | cons a l ih =>
      simp only [idsOf, List.map_cons, List.nodup_cons] at hnd
      cases hc : (a.id == tid) with
      | true =>
          rw [List.find?_cons_of_pos (p := fun u : Todo => u.id == tid) _ hc] at hf
          have hat : a = t := Option.some.inj hf
          subst hat
          rw [List.filter_cons_of_pos (p := fun u : Todo => u.id == tid) hc]
          have hrest : l.filter (fun u => u.id == tid) = [] := by
            rw [List.filter_eq_nil_iff]
            intro u hu
            simp only [beq_iff_eq]
            intro huid
            exact hnd.1 (by
              have : a.id = tid := by simpa using hc
              rw [this, ← huid]
              exact List.mem_map_of_mem Todo.id hu)
          rw [hrest]
      | false =>
          rw [List.find?_cons_of_neg _ (by simp [hc])] at hf
          rw [List.filter_cons_of_neg (by simp [hc])]
          exact ih hnd.2 hf

/-- C3: deleting a present id and undoing immediately restores the collection
up to permutation (the task comes back, possibly at the end), and leaves the
undo buffer and message empty. -/
theorem delete_undo_restores (s : AppState) (tid : String)
    (hnd : (idsOf s.todos).Nodup) (hmem : tid ∈ idsOf s.todos) :
    (undo (deleteTodo tid s)).todos.Perm s.todos ∧
    (undo (deleteTodo tid s)).undoStack = none ∧
    (undo (deleteTodo tid s)).undoMessage = none := by
  obtain ⟨t, ht, hid⟩ : ∃ t ∈ s.todos, t.id = tid := by
    simp only [idsOf, List.mem_map] at hmem
    obtain ⟨t, ht, hid⟩ := hmem
    exact ⟨t, ht, hid⟩
  have hsome : (s.todos.find? (fun u => u.id == tid)).isSome :=
    List.find?_isSome.mpr ⟨t, ht, by simp [hid]⟩
  obtain ⟨r, hf⟩ := Option.isSome_iff_exists.mp hsome
  have hrid : r.id = tid := by simpa using List.find?_some hf
  have hdel : deleteTodo tid s =
      { todos := s.todos.filter (fun u => u.id != tid)
        undoStack := some [r]
        undoMessage := some ("Deleted \"" ++ r.text ++ "\"") } := by
    simp [deleteTodo, hf]
  have hnotin : r.id ∉ idsOf (s.todos.filter (fun u => u.id != tid)) := by
    simp only [idsOf, List.mem_map, not_exists]
    rintro u ⟨hu, huid⟩
    have := (List.mem_filter.mp hu).2
    rw [huid, hrid] at this
    simp at this
  have hundo : undo (deleteTodo tid s) =
      { todos := s.todos.filter (fun u => u.id != tid) ++ [r]
        undoStack := none
        undoMessage := none } := by
    rw [hdel]
    simp only [undo]
    rw [if_neg (by simp)]
    congr 1
    simp [List.filter_cons, hnotin]
  refine ⟨?_, by rw [hundo], by rw [hundo]⟩
  rw [hundo]
  have hsplit := List.filter_append_perm (fun u => u.id == tid) s.todos
  have hone : s.todos.filter (fun u => u.id == tid) = [r] :=
    filter_beq_of_find? s.todos tid r hnd hf
  rw [hone] at hsplit
  have hbne : (fun x : Todo => !((fun u : Todo => u.id == tid) x)) =
      (fun u : Todo => u.id != tid) := rfl
  rw [hbne] at hsplit
  exact List.perm_append_comm.trans hsplit

/-- C3 at a concrete input. -/
theorem delete_undo_restores_witness :
    (undo (deleteTodo "1" sampleState)).todos.Perm sampleState.todos ∧
    (undo (deleteTodo "1" sampleState)).undoStack = none ∧
    (undo (deleteTodo "1" sampleState)).undoMessage = none :=
  delete_undo_restores sampleState "1" (by decide) (by decide)

/-! ### C4: clearCompleted -/

/-- C4: `clearCompleted` removes exactly the `done` tasks — the survivors are
the done-free filter of the collection, kept in relative order (a sublist) —
and replaces the undo buffer with the full removed sequence and the message
`Cleared <n> completed item(s)`, singular exactly when `n = 1`, whenever at
least one task was removed; otherwise the buffer and message are unchanged. -/
theorem clearCompleted_spec (s : AppState) :
    (clearCompleted s).todos = s.todos.filter (fun t => !t.done) ∧
    (clearCompleted s).todos.Sublist s.todos ∧
    (∀ t, t ∈ (clearCompleted s).todos ↔ (t ∈ s.todos ∧ t.done = false)) ∧
    (s.todos.filter (fun t => t.done) ≠ [] →
      (clearCompleted s).undoStack = some (s.todos.filter (fun t => t.done)) ∧
      (clearCompleted s).undoMessage =
        some ("Cleared " ++ toString (s.todos.filter (fun t => t.done)).length ++
              " completed item" ++
              (if (s.todos.filter (fun t => t.done)).length = 1 then "" else "s"))) ∧
    (s.todos.filter (fun t => t.done) = [] →
      (clearCompleted s).undoStack = s.undoStack ∧
      (clearCompleted s).undoMessage = s.undoMessage) := by
  by_cases hr : s.todos.filter (fun t => t.done) = []
  · have hlen : (s.todos.filter (fun t => t.done)).length = 0 := by rw [hr]; rfl
    refine ⟨by simp [clearCompleted, hlen], ?_, ?_, fun h => absurd hr h,
      fun _ => ⟨by simp [clearCompleted, hlen], by simp [clearCompleted, hlen]⟩⟩
    · rw [show (clearCompleted s).todos = s.todos.filter (fun t => !t.done) by
        simp [clearCompleted, hlen]]
      exact List.filter_sublist _
    · intro t
      rw [show (clearCompleted s).todos = s.todos.filter (fun t => !t.done) by
        simp [clearCompleted, hlen]]
      simp [List.mem_filter]
  · have hlen : (s.todos.filter (fun t => t.done)).length > 0 :=
      List.length_pos.mpr hr
    refine ⟨by simp [clearCompleted, hlen, clearMessage], ?_, ?_,
      fun _ => ⟨by simp [clearCompleted, hlen, clearMessage],
                by simp [clearCompleted, hlen, clearMessage]⟩,
      fun h => absurd h hr⟩
    · rw [show (clearCompleted s).todos = s.todos.filter (fun t => !t.done) by
        simp [clearCompleted, hlen, clearMessage]]
      exact List.filter_sublist _
    · intro t
      rw [show (clearCompleted s).todos = s.todos.filter (fun t => !t.done) by
        simp [clearCompleted, hlen, clearMessage]]
      simp [List.mem_filter]

/-! ### C5: the `due` projection -/

theorem localeCompare_nonpos (a b : String) : localeCompare a b ≤ 0 ↔ a ≤ b := by
  rcases lt_trichotomy a b with h | h | h
  · simp [localeCompare, h, h.le]
  · subst h; simp [localeCompare]
  · simp [localeCompare, h, h.asymm, h.not_le]

/-- The sort rank of a due key: the empty (falsy) key sorts after every
other, so it is sent to the top element. -/
def dueRank (t : Todo) : WithTop String :=
  if dueKey t = "" then ⊤ else (dueKey t : WithTop String)

/-- The lexicographic projection the `due` comparator orders by:
rank first, text second. -/
def dueProj (t : Todo) : Lex (WithTop String × String) := toLex (dueRank t, t.text)

/-- The `due` comparator is the lexicographic order pulled back along
`dueProj`; this gives totality and transitivity for free. -/
theorem dueLE_iff_proj (a b : Todo) : dueLE a b ↔ dueProj a ≤ dueProj b := by
  simp only [dueLE, dueCmp, dueProj, dueRank]
  rw [Prod.Lex.le_iff]
  by_cases hab : dueKey a = dueKey b
  · by_cases ha : dueKey a = ""
    · have hb : dueKey b = "" := by rw [← hab]; exact ha
      simp [hab, ha, hb, localeCompare_nonpos]
    · have hb : dueKey b ≠ "" := by rw [← hab]; exact ha
      simp [hab, ha, hb, localeCompare_nonpos]
  · by_cases ha : dueKey a = ""
    · have hb : dueKey b ≠ "" := fun hb => hab (by rw [ha, hb])
      simp [hab, ha, hb, Ne.symm hb]
    · by_cases hb : dueKey b = ""
      · simp [hab, ha, hb, WithTop.coe_lt_top]
      · simp only [if_neg hab, if_neg ha, if_neg hb]
        rw [localeCompare_nonpos]
        constructor
        · intro hle
          exact Or.inl (WithTop.coe_lt_coe.mpr (lt_of_le_of_ne hle hab))
        · rintro (hlt | ⟨heq, -⟩)
          · exact le_of_lt (WithTop.coe_lt_coe.mp hlt)
          · exact absurd (WithTop.coe_inj.mp heq) hab

instance : IsTotal Todo dueLE :=
  ⟨fun a b => by rw [dueLE_iff_proj, dueLE_iff_proj]; exact le_total _ _⟩

instance : IsTrans Todo dueLE :=
  ⟨fun a b c hab hbc => by
    rw [dueLE_iff_proj] at hab hbc ⊢
    exact le_trans hab hbc⟩

theorem pairwise_dueLE_insertionSort (l : List Todo) :
    (List.insertionSort dueLE l).Pairwise dueLE :=
  List.sorted_insertionSort dueLE l

/-- The ordering C5 describes, word for word: a present (nonempty) due key
comes before an absent (empty) one; two present keys order by string
comparison; ties — equal keys or both absent — order by text. -/
def dueSpecLE (a b : Todo) : Prop :=
  (dueKey a ≠ "" ∧ dueKey b = "") ∨
  (dueKey a ≠ "" ∧ dueKey b ≠ "" ∧ dueKey a < dueKey b) ∨
  (dueKey a = dueKey b ∧ a.text ≤ b.text)

theorem dueLE_imp_dueSpecLE {a b : Todo} (h : dueLE a b) : dueSpecLE a b := by
  unfold dueSpecLE
  by_cases hab : dueKey a = dueKey b
  · refine Or.inr (Or.inr ⟨hab, ?_⟩)
    simp only [dueLE, dueCmp, hab, if_pos] at h
    exact (localeCompare_nonpos _ _).mp h
  · simp only [dueLE, dueCmp, if_neg hab] at h
    by_cases ha : dueKey a = ""
    · rw [if_pos ha] at h
      norm_num at h
    · rw [if_neg ha] at h
      by_cases hb : dueKey b = ""
      · exact Or.inl ⟨ha, hb⟩
      · rw [if_neg hb] at h
        exact Or.inr (Or.inl ⟨ha, hb,
          lt_of_le_of_ne ((localeCompare_nonpos _ _).mp h) hab⟩)

/-- The first example task of C5: due `2024-01-05`. -/
def exDue05 : Todo := { id := "e1", text := "alpha", done := false, dueDate := some "2024-01-05" }

/-- The second example task of C5: due `2024-01-01`. -/
def exDue01 : Todo := { id := "e2", text := "beta", done := false, dueDate := some "2024-01-01" }

/-- The third example task of C5: no due date. -/
def exNoDue : Todo := { id := "e3", text := "gamma", done := false, dueDate := none }

/-- C5: the `due` projection is a permutation of the filtered tasks (so the
canonical collection itself is untouched — the projection is a pure
function) that is pairwise ordered as the spec describes: ascending by due
key, absent (empty) keys after all present ones, ties by ascending text;
on the three example tasks the projection is `2024-01-01`, `2024-01-05`,
undated, for every one of the six insertion orders. -/
theorem due_sort_projection (todos : List Todo) (f : Filter) :
    (filteredTodos f .due todos).Perm (applyFilter f todos) ∧
    (filteredTodos f .due todos).Pairwise dueSpecLE ∧
    (∀ l ∈ ([[exDue05, exDue01, exNoDue], [exDue05, exNoDue, exDue01],
             [exDue01, exDue05, exNoDue], [exDue01, exNoDue, exDue05],
             [exNoDue, exDue05, exDue01], [exNoDue, exDue01, exDue05]] : List (List Todo)),
      filteredTodos Filter.all SortMode.due l = [exDue01, exDue05, exNoDue]) := by
  refine ⟨List.perm_insertionSort dueLE _, ?_, ?_⟩
  · exact (pairwise_dueLE_insertionSort _).imp (fun h => dueLE_imp_dueSpecLE h)
  · intro l hl
    fin_cases hl <;>
      simp +decide [filteredTodos, applyFilter, List.insertionSort, List.orderedInsert,
        dueLE, dueCmp, dueKey, localeCompare, exDue05, exDue01, exNoDue]

/-! ### C6: derived counters -/

/-- A completed example task for the counter example. -/
def cntA : Todo := { id := "c1", text := "a", done := true, dueDate := none }

/-- An active example task for the counter example. -/
def cntB : Todo := { id := "c2", text := "b", done := false, dueDate := none }

/-- Another active example task for the counter example. -/
def cntC : Todo := { id := "c3", text := "c", done := false, dueDate := none }

/-- C6: `remaining` counts the unfiltered tasks with `done = false`;
`completionPercent` is `round(100 * (total - remaining) / total)` with exact
rounding (`Math.round` = floor of `q + 1/2`), `0` when the collection is
empty; in particular it is `0` for no tasks and `33` for three tasks with
one done.  Both counters read only the canonical collection, so no filter
can influence them. -/
theorem counters_spec (todos : List Todo) :
    remainingCount todos = (todos.filter (fun t => t.done = false)).length ∧
    (todos.length = 0 → completionPct todos = 0) ∧
    (todos.length ≠ 0 →
      completionPct todos =
        jsRound (100 * ((todos.length : ℚ) - (remainingCount todos : ℚ)) / (todos.length : ℚ))) ∧
    completionPct [] = 0 ∧
    completionPct [cntA, cntB, cntC] = 33 := by
  refine ⟨?_, ?_, ?_, rfl, ?_⟩
  · have hfun : (fun t : Todo => !t.done) = (fun t : Todo => decide (t.done = false)) := by
      funext t; cases t.done <;> rfl
    rw [remainingCount, hfun]
  · intro h; simp [completionPct, h]
  · intro h
    simp only [completionPct, if_neg h]
    congr 1
    ring
  · have hrem : remainingCount [cntA, cntB, cntC] = 2 := by decide
    simp only [completionPct, List.length_cons, List.length_nil, hrem]
    norm_num [jsRound]

/-! ### C7: the overdue flag -/

/-- C7: a task is flagged overdue exactly when its due date is present (a
nonempty string — the code's truthiness test, which also treats the empty
string as absent), the task is not done, and the due date is strictly below
today in string order; consequently done tasks and tasks without a due date
are never overdue. -/
theorem isOverdue_spec (today : String) (t : Todo) :
    (isOverdue today t = true ↔ dueKey t ≠ "" ∧ t.done = false ∧ dueKey t < today) ∧
    (t.done = true → isOverdue today t = false) ∧
    (t.dueDate = none → isOverdue today t = false) := by
  refine ⟨?_, ?_, ?_⟩
  · by_cases hd : dueKey t = ""
    · simp [isOverdue, hd]
    · cases hdone : t.done <;> simp [isOverdue, hd, hdone]
  · intro h; simp [isOverdue, h]
  · intro h; simp [isOverdue, dueKey, h]

/-! ### C8: load-time validation -/

/-- C8: loading is total (never throws: every branch of the model is a
value); a missing tasks key, a parse failure, or a parse result that is not
an array all leave the empty default, while an array is taken whole; a
filter value that is not exactly one of the three literals leaves `all`,
and a sort value that is not exactly one of the three literals leaves
`manual` (exact literals load as themselves). -/
theorem load_defaults_spec (jsonParse : String → Except String JsonVal) :
    loadTodos jsonParse none = [] ∧
    loadTodos jsonParse (some "") = [] ∧
    (∀ s e, jsonParse s = .error e → loadTodos jsonParse (some s) = []) ∧
    (∀ s xs, s ≠ "" → jsonParse s = .ok (.arr xs) → loadTodos jsonParse (some s) = xs) ∧
    (∀ s v, jsonParse s = .ok v → (∀ xs, v ≠ JsonVal.arr xs) →
      loadTodos jsonParse (some s) = []) ∧
    (∀ o : Option String, (∀ f : Filter, o ≠ some (filterLiteral f)) →
      loadFilter o = Filter.all) ∧
    (∀ f : Filter, loadFilter (some (filterLiteral f)) = f) ∧
    (∀ o : Option String, (∀ m : SortMode, o ≠ some (sortLiteral m)) →
      loadSort o = SortMode.manual) ∧
    (∀ m : SortMode, loadSort (some (sortLiteral m)) = m) := by
  refine ⟨rfl, rfl, ?_, ?_, ?_, ?_, ?_, ?_, ?_⟩
  · intro s e h
    by_cases hs : s = ""
    · simp [loadTodos, hs]
    · simp [loadTodos, hs, h]
  · intro s xs hs h
    simp [loadTodos, hs, h]
  · intro s v hv hnarr
    by_cases hs : s = ""
    · simp [loadTodos, hs]
    · cases v with
      | null => simp [loadTodos, hs, hv]
      | bool b => simp [loadTodos, hs, hv]
      | num q => simp [loadTodos, hs, hv]
      | str s2 => simp [loadTodos, hs, hv]
      | arr xs => exact absurd rfl (hnarr xs)
      | obj kvs => simp [loadTodos, hs, hv]
  · intro o h
    have h1 : o ≠ some "all" := h Filter.all
    have h2 : o ≠ some "active" := h Filter.active
    have h3 : o ≠ some "completed" := h Filter.completed
    rw [loadFilter, if_neg h1, if_neg h2, if_neg h3]
  · intro f; cases f <;> rfl
  · intro o h
    have h1 : o ≠ some "manual" := h SortMode.manual
    have h2 : o ≠ some "due" := h SortMode.due
    have h3 : o ≠ some "status" := h SortMode.status
    rw [loadSort, if_neg h1, if_neg h2, if_neg h3]
  · intro m; cases m <;> rfl

/-! ### C9: id uniqueness -/

/-- A task sharing its id with `dupTaskB`. -/
def dupTaskA : Todo := { id := "d", text := "x", done := true, dueDate := none }

/-- A task sharing its id with `dupTaskA`. -/
def dupTaskB : Todo := { id := "d", text := "y", done := true, dueDate := none }

/-- C9 fails as stated: from a state whose canonical collection has
duplicate-free ids (it is empty) but whose undo buffer holds two tasks with
the same id, `undo` produces a collection with a duplicated id. -/
theorem undo_duplicate_buffer_counterexample :
    (idsOf ({ todos := [], undoStack := some [dupTaskA, dupTaskB],
              undoMessage := some "m" } : AppState).todos).Nodup ∧
    ¬ (idsOf (undo { todos := [], undoStack := some [dupTaskA, dupTaskB],
                     undoMessage := some "m" }).todos).Nodup := by
  constructor
  · decide
  · decide

theorem idsOf_sublist {l₁ l₂ : List Todo} (h : l₁.Sublist l₂) :
    (idsOf l₁).Sublist (idsOf l₂) := h.map Todo.id

theorem idsOf_map_id_preserving (f : Todo → Todo) (hf : ∀ t, (f t).id = t.id)
    (l : List Todo) : idsOf (l.map f) = idsOf l := by
  simp only [idsOf, List.map_map]
  exact List.map_congr_left (fun a _ => by simp [hf a])

/-- C9 (amended): with the invariant strengthened to cover the undo buffer —
its tasks too have pairwise-distinct ids, as they do in every reachable
state, being a duplicate-free selection of a duplicate-free collection —
every Task Store operation keeps the canonical collection's ids
duplicate-free (for `add`, under the freshness precondition on `newId`),
and `undo` re-inserts only buffered tasks whose id is not already present. -/
theorem ops_preserve_id_uniqueness (s : AppState)
    (hnd : (idsOf s.todos).Nodup)
    (hbuf : (idsOf (s.undoStack.getD [])).Nodup) :
    (∀ newId newTodo newDue, newId ∉ idsOf s.todos →
      (idsOf (addTodo newId newTodo newDue s).todos).Nodup) ∧
    (∀ tid, (idsOf (toggleTodo tid s).todos).Nodup) ∧
    (∀ tid, (idsOf (deleteTodo tid s).todos).Nodup) ∧
    (∀ eid etext, (idsOf (saveEditing eid etext s).todos).Nodup) ∧
    (idsOf (clearCompleted s).todos).Nodup ∧
    (idsOf (undo s).todos).Nodup ∧
    (idsOf (dismissUndo s).todos).Nodup ∧
    (∀ t, t ∈ (undo s).todos →
      t ∈ s.todos ∨ (t ∈ s.undoStack.getD [] ∧ t.id ∉ idsOf s.todos)) := by
  refine ⟨?_, ?_, ?_, ?_, ?_, ?_, hnd, ?_⟩
  · intro newId newTodo newDue hfresh
    cases hc : canAdd newTodo with
    | false => simpa [addTodo, hc] using hnd
    | true =>
        have : idsOf (addTodo newId newTodo newDue s).todos = idsOf s.todos ++ [newId] := by
          simp [addTodo, hc, idsOf]
        rw [this]
        exact List.Nodup.append hnd (List.nodup_singleton _)
          (by simpa [List.disjoint_singleton] using hfresh)
  · intro tid
    rw [show (toggleTodo tid s).todos =
        s.todos.map (fun t => if t.id == tid then { t with done := !t.done } else t) from rfl]
    rw [idsOf_map_id_preserving _ (fun t => by by_cases h : (t.id == tid) = true <;> simp [h])]
    exact hnd
  · intro tid
    cases hf : s.todos.find? (fun t => t.id == tid) with
    | none => simpa [deleteTodo, hf] using hnd
    | some removed =>
        have : (deleteTodo tid s).todos = s.todos.filter (fun t => t.id != tid) := by
          simp [deleteTodo, hf]
        rw [this]
        exact (idsOf_sublist (List.filter_sublist _)).nodup hnd
  · intro eid etext
    cases eid with
    | none => simpa [saveEditing] using hnd
    | some e =>
        by_cases hl : (jsTrim etext).length = 0
        · cases hf : s.todos.find? (fun t => t.id == e) with
          | none =>
              have : (saveEditing (some e) etext s).todos =
                  s.todos.filter (fun t => t.id != e) := by
                simp [saveEditing, hl, hf]
              rw [this]
              exact (idsOf_sublist (List.filter_sublist _)).nodup hnd
          | some removed =>
              have : (saveEditing (some e) etext s).todos =
                  s.todos.filter (fun t => t.id != e) := by
                simp [saveEditing, hl, hf]
              rw [this]
              exact (idsOf_sublist (List.filter_sublist _)).nodup hnd
        · have : (saveEditing (some e) etext s).todos =
              s.todos.map (fun t => if t.id == e then { t with text := jsTrim etext } else t) := by
            simp [saveEditing, hl]
          rw [this]
          rw [idsOf_map_id_preserving _ (fun t => by by_cases h : (t.id == e) = true <;> simp [h])]
          exact hnd
  · have hsub : (clearCompleted s).todos.Sublist s.todos := by
      by_cases hr : (s.todos.filter (fun t => t.done)).length > 0
      · rw [show (clearCompleted s).todos = s.todos.filter (fun t => !t.done) by
          simp [clearCompleted, hr]]
        exact List.filter_sublist _
      · rw [show (clearCompleted s).todos = s.todos.filter (fun t => !t.done) by
          simp [clearCompleted, hr]]
        exact List.filter_sublist _
    exact (idsOf_sublist hsub).nodup hnd
  · cases hst : s.undoStack with
    | none => simpa [undo, hst] using hnd
    | some stack =>
        by_cases hlen : stack.length = 0
        · simpa [undo, hst, hlen] using hnd
        · have hrw : (undo s).todos =
              s.todos ++ stack.filter (fun t => !((idsOf s.todos).contains t.id)) := by
            simp [undo, hst, hlen]
          rw [hrw, idsOf, List.map_append]
          refine List.Nodup.append hnd ?_ ?_
          · have hs : (stack.filter (fun t => !((idsOf s.todos).contains t.id))).Sublist stack :=
              List.filter_sublist _
            have := idsOf_sublist hs
            rw [hst] at hbuf
            exact this.nodup hbuf
          · intro x hx hx2
            simp only [List.mem_map] at hx2
            obtain ⟨u, hu, huid⟩ := hx2
            have := (List.mem_filter.mp hu).2
            rw [huid] at this
            simp only [Bool.not_eq_true'] at this
            have hxin : x ∈ idsOf s.todos := hx
            rw [show (idsOf s.todos).contains x = true by simpa using hxin] at this
            cases this
  · intro t ht
    cases hst : s.undoStack with
    | none => left; simpa [undo, hst] using ht
    | some stack =>
        by_cases hlen : stack.length = 0
        · left; simpa [undo, hst, hlen] using ht
        · rw [show (undo s).todos =
              s.todos ++ stack.filter (fun u => !((idsOf s.todos).contains u.id)) by
            simp [undo, hst, hlen]] at ht
          rcases List.mem_append.mp ht with h | h
          · exact Or.inl h
          · refine Or.inr ⟨by simpa [hst] using (List.mem_filter.mp h).1, ?_⟩
            have := (List.mem_filter.mp h).2
            simp only [Bool.not_eq_true'] at this
            intro hmem
            rw [show (idsOf s.todos).contains t.id = true by simpa using hmem] at this
            cases this

/-- C9's amended theorem at a concrete input. -/
theorem ops_preserve_id_uniqueness_witness :
    (idsOf sampleState.todos).Nodup ∧
    (idsOf (sampleState.undoStack.getD [])).Nodup ∧
    (idsOf (toggleTodo "1" sampleState).todos).Nodup :=
  ⟨by decide, by decide,
    ((ops_preserve_id_uniqueness sampleState (by decide) (by decide)).2.1) "1"⟩

/-! ### C10: the empty-string due date behaves as absent -/

/-- A task whose persisted due date is the empty string. -/
def emptyDueTask : Todo := { id := "w", text := "w", done := false, dueDate := some "" }

/-- C10: a task with `dueDate = some ""` behaves exactly like the same task
with no due date: the `due` comparator cannot tell them apart on either
side, the overdue flag is always false, in a `due`-sorted projection no
empty-key task ever precedes a task with a nonempty due key, and `add`
itself never creates such a task (an empty due input becomes absent). -/
theorem empty_due_like_absent (t u : Todo) (today : String)
    (ht : t.dueDate = some "") :
    dueCmp t u = dueCmp { t with dueDate := none } u ∧
    dueCmp u t = dueCmp u { t with dueDate := none } ∧
    isOverdue today t = false ∧
    isOverdue today t = isOverdue today { t with dueDate := none } ∧
    (dueKey u ≠ "" → dueCmp u t = -1 ∧ dueCmp t u = 1) ∧
    (∀ l : List Todo,
      (List.insertionSort dueLE l).Pairwise (fun a b => dueKey a = "" → dueKey b = "")) ∧
    (∀ nid ntext s, ∀ x ∈ (addTodo nid ntext "" s).todos, x ∈ s.todos ∨ x.dueDate = none) := by
  have hkey : dueKey t = "" := by simp [dueKey, ht]
  have hkey0 : dueKey { t with dueDate := none } = "" := by simp [dueKey]
  refine ⟨?_, ?_, ?_, ?_, ?_, ?_, ?_⟩
  · simp [dueCmp, hkey, hkey0]
  · simp [dueCmp, hkey, hkey0]
  · simp [isOverdue, hkey]
  · simp [isOverdue, hkey, hkey0]
  · intro hu
    constructor
    · simp [dueCmp, hkey, hu]
    · simp [dueCmp, hkey, hu, Ne.symm hu]
  · intro l
    refine (pairwise_dueLE_insertionSort l).imp ?_
    intro a b hle ha
    by_contra hb
    have h1 : ("" : String) ≠ dueKey b := fun hh => hb hh.symm
    simp [dueLE, dueCmp, ha, h1] at hle
  · intro nid ntext s x hx
    cases hc : canAdd ntext with
    | false =>
        rw [show (addTodo nid ntext "" s).todos = s.todos by simp [addTodo, hc]] at hx
        exact Or.inl hx
    | true =>
        rw [show (addTodo nid ntext "" s).todos =
            s.todos ++ [{ id := nid, text := jsTrim ntext, done := false, dueDate := none }] by
          simp [addTodo, hc]] at hx
        rcases List.mem_append.mp hx with h | h
        · exact Or.inl h
        · right
          rw [List.mem_singleton.mp h]

/-- C10 at a concrete input: the empty-string due date is never overdue. -/
theorem empty_due_like_absent_witness :
    emptyDueTask.dueDate = some "" ∧
    isOverdue "2024-01-01" emptyDueTask = false :=
  ⟨rfl, (empty_due_like_absent emptyDueTask exDue05 "2024-01-01" rfl).2.2.1⟩

end TodoApp
